import Mathlib

/-!
Shallow embedding of the slither.io client game component
(frontend `Game` class: interpolation engine, camera/zoom, food diffs,
state machine, render culling), with theorems checking the specification
claims against it.

Conventions:
* JS numbers are embedded as `ℚ` (exact arithmetic idealization of doubles).
* `Math.PI` is embedded as the exact rational value of the IEEE-754 double
  `3.141592653589793115997963468544185161590576171875`.
* `Math.hypot dx dy > 500` is embedded as `500^2 < dx^2 + dy^2`, which is
  equivalent for the real square root since both sides are nonnegative.
-/

/-- A 2-D world point, as in the client `Point` interface. -/
structure Point where
  x : ℚ
  y : ℚ
deriving Repr, DecidableEq

/-- The authoritative per-player snapshot fields used by the interpolation
and zoom logic (`p.body`, `p.angle`, `p.length`). -/
structure SrvPlayer where
  body : List Point
  angle : ℚ
  length : ℚ
deriving Repr, DecidableEq

/-- The client `VisualPlayer` interface: smoothed head position, smoothed
heading and smoothed body. -/
structure VisualPlayer where
  x : ℚ
  y : ℚ
  angle : ℚ
  body : List Point
deriving Repr, DecidableEq

/-- Exact rational value of the IEEE-754 double `Math.PI`. -/
def MathPI : ℚ := 884279719003555 / 281474976710656

theorem mathPI_pos : 0 < MathPI := by norm_num [MathPI]

theorem mathPI_lt_four : MathPI < 4 := by norm_num [MathPI]

theorem three_lt_mathPI : 3 < MathPI := by norm_num [MathPI]

/-- The loop `while (diff > Math.PI) diff -= Math.PI * 2;` from
`updateVisuals`. -/
def wrapDown (d : ℚ) : ℚ :=
  if h : MathPI < d then wrapDown (d - 2 * MathPI) else d
termination_by (⌈(d - MathPI) / (2 * MathPI)⌉).toNat
decreasing_by
  have h2 : (0 : ℚ) < 2 * MathPI := by norm_num [MathPI]
  have e : (d - 2 * MathPI - MathPI) / (2 * MathPI)
      = (d - MathPI) / (2 * MathPI) - 1 := by
    field_simp
    ring
  have hk : 0 < ⌈(d - MathPI) / (2 * MathPI)⌉ :=
    Int.ceil_pos.mpr (div_pos (by linarith) h2)
  rw [e, Int.ceil_sub_one]
  omega

/-- The loop `while (diff < -Math.PI) diff += Math.PI * 2;` from
`updateVisuals`. -/
def wrapUp (d : ℚ) : ℚ :=
  if h : d < -MathPI then wrapUp (d + 2 * MathPI) else d
termination_by (⌈(-MathPI - d) / (2 * MathPI)⌉).toNat
decreasing_by
  have h2 : (0 : ℚ) < 2 * MathPI := by norm_num [MathPI]
  have e : (-MathPI - (d + 2 * MathPI)) / (2 * MathPI)
      = (-MathPI - d) / (2 * MathPI) - 1 := by
    field_simp
    ring
  have hk : 0 < ⌈(-MathPI - d) / (2 * MathPI)⌉ :=
    Int.ceil_pos.mpr (div_pos (by linarith) h2)
  rw [e, Int.ceil_sub_one]
  omega

/-- The composed angle-difference wrapping performed at lines
`while (diff > Math.PI) ...; while (diff < -Math.PI) ...` of
`updateVisuals`. -/
def wrapDiff (d : ℚ) : ℚ := wrapUp (wrapDown d)

/-- The body copy `p.body.map((b) => ({ x: b.x, y: b.y }))`. -/
def copyBody (b : List Point) : List Point := b.map (fun q => ⟨q.x, q.y⟩)

/-- The grow loop
`while (vis.body.length < p.body.length) vis.body.push({ ...vis.body[vis.body.length - 1] });`.
The `getLastD ⟨0, 0⟩` default is only reached from an empty body, where the
JS code would spread `undefined`; all theorems guard that case. -/
def growBody (b : List Point) (n : Nat) : List Point :=
  if h : b.length < n then growBody (b ++ [b.getLastD ⟨0, 0⟩]) n else b
termination_by n - b.length
decreasing_by
  simp only [List.length_append, List.length_cons, List.length_nil]
  omega

/-- The shrink loop
`while (vis.body.length > p.body.length) vis.body.pop();`. -/
def shrinkBody (b : List Point) (n : Nat) : List Point :=
  if h : n < b.length then shrinkBody b.dropLast n else b
termination_by b.length - n
decreasing_by
  simp only [List.length_dropLast]
  omega

/-- Both reconciliation loops in sequence (only one of them can iterate). -/
def reconcileBody (b : List Point) (n : Nat) : List Point :=
  shrinkBody (growBody b n) n

/-- One iteration of the per-player loop body of `updateVisuals`
(lines 152–191): skip players with a missing/empty body, create the visual
on first sighting, reconcile body lengths, then either teleport-snap
(head distance above 500) or exponentially smooth head, angle and body. -/
def updatePlayerVisual (dt : ℚ) (p : SrvPlayer) (visOpt : Option VisualPlayer) :
    Option VisualPlayer :=
  match p.body with
  | [] => visOpt
  | targetHead :: _ =>
    let vis0 : VisualPlayer :=
      match visOpt with
      | none =>
          { x := targetHead.x, y := targetHead.y, angle := p.angle,
            body := copyBody p.body }
      | some v => v
    let body1 := reconcileBody vis0.body p.body.length
    let dsq := (targetHead.x - vis0.x) ^ 2 + (targetHead.y - vis0.y) ^ 2
    if 500 ^ 2 < dsq then
      some { x := targetHead.x, y := targetHead.y, angle := p.angle,
             body := copyBody p.body }
    else
      let ls := 10 * dt
      some { x := vis0.x + (targetHead.x - vis0.x) * ls,
             y := vis0.y + (targetHead.y - vis0.y) * ls,
             angle := vis0.angle + wrapDiff (p.angle - vis0.angle) * ls,
             body := List.zipWith
               (fun pb vb =>
                 ⟨vb.x + (pb.x - vb.x) * ls, vb.y + (pb.y - vb.y) * ls⟩)
               p.body body1 }

/-! ### Properties of the angle-wrapping loops -/

theorem wrapDown_le (d : ℚ) : wrapDown d ≤ MathPI := by
  induction d using wrapDown.induct with
  | case1 x h ih =>
    rw [wrapDown, dif_pos h]
    exact ih
  | case2 x h =>
    rw [wrapDown, dif_neg h]
    exact le_of_not_lt h

theorem wrapUp_ge (d : ℚ) : -MathPI ≤ wrapUp d := by
  induction d using wrapUp.induct with
  | case1 x h ih =>
    rw [wrapUp, dif_pos h]
    exact ih
  | case2 x h =>
    rw [wrapUp, dif_neg h]
    linarith [not_lt.mp h]

theorem wrapUp_le (d : ℚ) (hd : d ≤ MathPI) : wrapUp d ≤ MathPI := by
  induction d using wrapUp.induct with
  | case1 x h ih =>
    rw [wrapUp, dif_pos h]
    have hpi : 0 < MathPI := mathPI_pos
    exact ih (by linarith)
  | case2 x h =>
    rw [wrapUp, dif_neg h]
    exact hd

theorem wrapDown_sub (d : ℚ) : ∃ k : ℤ, wrapDown d = d - 2 * MathPI * k := by
  induction d using wrapDown.induct with
  | case1 x h ih =>
    obtain ⟨k, hk⟩ := ih
    refine ⟨k + 1, ?_⟩
    rw [wrapDown, dif_pos h, hk]
    push_cast
    ring
  | case2 x h =>
    refine ⟨0, ?_⟩
    rw [wrapDown, dif_neg h]
    push_cast
    ring

theorem wrapUp_add (d : ℚ) : ∃ k : ℤ, wrapUp d = d + 2 * MathPI * k := by
  induction d using wrapUp.induct with
  | case1 x h ih =>
    obtain ⟨k, hk⟩ := ih
    refine ⟨k + 1, ?_⟩
    rw [wrapUp, dif_pos h, hk]
    push_cast
    ring
  | case2 x h =>
    refine ⟨0, ?_⟩
    rw [wrapUp, dif_neg h]
    push_cast
    ring

theorem wrapDiff_le (d : ℚ) : wrapDiff d ≤ MathPI :=
  wrapUp_le _ (wrapDown_le d)

theorem wrapDiff_ge (d : ℚ) : -MathPI ≤ wrapDiff d :=
  wrapUp_ge _

theorem abs_wrapDiff_le_pi (d : ℚ) : |wrapDiff d| ≤ MathPI :=
  abs_le.mpr ⟨wrapDiff_ge d, wrapDiff_le d⟩

theorem wrapDiff_modEq (d : ℚ) : ∃ k : ℤ, wrapDiff d = d + 2 * MathPI * k := by
  obtain ⟨k1, h1⟩ := wrapDown_sub d
  obtain ⟨k2, h2⟩ := wrapUp_add (wrapDown d)
  refine ⟨k2 - k1, ?_⟩
  rw [wrapDiff, h2, h1]
  push_cast
  ring

/-- The wrapped value has minimal magnitude in its class modulo `2π`. -/
theorem wrapDiff_min_abs (z b : ℚ) (k : ℤ) (h : b = wrapDiff z + 2 * MathPI * k) :
    |wrapDiff z| ≤ |b| := by
  rcases eq_or_ne k 0 with hk | hk
  · subst hk
    simp at h
    rw [h]
  · have h1 : (1 : ℚ) ≤ |(k : ℚ)| := by
      have := Int.one_le_abs hk
      calc (1 : ℚ) = ((1 : ℤ) : ℚ) := by norm_num
        _ ≤ ((|k| : ℤ) : ℚ) := by exact_mod_cast this
        _ = |(k : ℚ)| := by push_cast; ring
    have hpi : 0 < MathPI := mathPI_pos
    have habs : |2 * MathPI * (k : ℚ)| = 2 * MathPI * |(k : ℚ)| := by
      rw [abs_mul, abs_of_pos (by linarith : (0:ℚ) < 2 * MathPI)]
    have h2 : 2 * MathPI ≤ |2 * MathPI * (k : ℚ)| := by
      rw [habs]
      nlinarith
    have h3 : |2 * MathPI * (k : ℚ)| ≤ |b| + |wrapDiff z| := by
      have : 2 * MathPI * (k : ℚ) = b - wrapDiff z := by rw [h]; ring
      rw [this]
      exact abs_sub _ _
    have h4 : |wrapDiff z| ≤ MathPI := abs_wrapDiff_le_pi z
    linarith

theorem wrapDiff_eq_self (d : ℚ) (h1 : -MathPI ≤ d) (h2 : d ≤ MathPI) :
    wrapDiff d = d := by
  rw [wrapDiff, wrapDown, dif_neg (not_lt.mpr h2), wrapUp,
    dif_neg (not_lt.mpr h1)]

theorem wrapDiff_zero : wrapDiff 0 = 0 :=
  wrapDiff_eq_self 0 (by norm_num [MathPI]) (by norm_num [MathPI])

/-- C4 (amended): for all angles and all `0 ≤ dt ≤ 1/5`, one interpolation
step of `updateVisuals` wraps the raw angle difference into the closed
interval `[−π, π]` (−π is a fixed point of the wrap loops, so the interval
is closed at −π rather than the claimed half-open `(−π, π]`), and the
post-step wrapped angular delta's magnitude never exceeds the pre-step
wrapped delta's magnitude. -/
theorem claim_C4_amended (dt : ℚ) (p : SrvPlayer) (vis vis' : VisualPlayer)
    (hdt0 : 0 ≤ dt) (hdt : dt ≤ 1 / 5)
    (hres : updatePlayerVisual dt p (some vis) = some vis') :
    (-MathPI ≤ wrapDiff (p.angle - vis.angle)
      ∧ wrapDiff (p.angle - vis.angle) ≤ MathPI)
    ∧ |wrapDiff (p.angle - vis'.angle)| ≤ |wrapDiff (p.angle - vis.angle)| := by
  refine ⟨⟨wrapDiff_ge _, wrapDiff_le _⟩, ?_⟩
  rcases hb : p.body with _ | ⟨th, rest⟩
  · rw [updatePlayerVisual, hb, Option.some.injEq] at hres
    rw [hres]
  · rw [updatePlayerVisual, hb] at hres
    dsimp only at hres
    split at hres
    · rw [Option.some.injEq] at hres
      rw [← hres]
      dsimp only
      rw [sub_self, wrapDiff_zero, abs_zero]
      exact abs_nonneg _
    · rw [Option.some.injEq] at hres
      rw [← hres]
      dsimp only
      obtain ⟨k, hk⟩ := wrapDiff_modEq (p.angle - vis.angle)
      obtain ⟨k2, hk2⟩ := wrapDiff_modEq
        (p.angle - (vis.angle + wrapDiff (p.angle - vis.angle) * (10 * dt)))
      have hrep : wrapDiff (p.angle - vis.angle) * (1 - 10 * dt)
          = wrapDiff (p.angle - (vis.angle
              + wrapDiff (p.angle - vis.angle) * (10 * dt)))
            + 2 * MathPI * ((k - k2 : ℤ) : ℚ) := by
        push_cast
        rw [hk2, hk]
        ring
      have hmin := wrapDiff_min_abs
        (p.angle - (vis.angle + wrapDiff (p.angle - vis.angle) * (10 * dt)))
        (wrapDiff (p.angle - vis.angle) * (1 - 10 * dt)) (k - k2) hrep
      calc |wrapDiff (p.angle - (vis.angle
              + wrapDiff (p.angle - vis.angle) * (10 * dt)))|
          ≤ |wrapDiff (p.angle - vis.angle) * (1 - 10 * dt)| := hmin
        _ = |wrapDiff (p.angle - vis.angle)| * |1 - 10 * dt| := abs_mul _ _
        _ ≤ |wrapDiff (p.angle - vis.angle)| * 1 := by
            have : |1 - 10 * dt| ≤ 1 :=
              abs_le.mpr ⟨by linarith, by linarith⟩
            exact mul_le_mul_of_nonneg_left this (abs_nonneg _)
        _ = |wrapDiff (p.angle - vis.angle)| := mul_one _

/-- C4 as stated is false: at `dt = 0.3` (which satisfies `dt ≥ 0`), with
authoritative angle `π/2` and visual angle `0`, the step moves the visual
angle to `3π/2`, so the post-step wrapped delta has magnitude `π`, which
exceeds the pre-step wrapped delta's magnitude `π/2`; moreover the wrap
loops leave a raw difference of exactly `−π` at `−π`, which is outside the
claimed interval `(−π, π]`. -/
theorem claim_C4_counterexample :
    (updatePlayerVisual (3 / 10) ⟨[⟨0, 0⟩], MathPI / 2, 0⟩
        (some ⟨0, 0, 0, [⟨0, 0⟩]⟩)
      = some ⟨0, 0, MathPI / 2 * 3, [⟨0, 0⟩]⟩)
    ∧ ¬ |wrapDiff (MathPI / 2 - MathPI / 2 * 3)| ≤ |wrapDiff (MathPI / 2 - 0)|
    ∧ ¬ -MathPI < wrapDiff (-MathPI) := by
  have eHalf : wrapDiff (MathPI / 2) = MathPI / 2 :=
    wrapDiff_eq_self _ (by norm_num [MathPI]) (by norm_num [MathPI])
  have eNegPi : wrapDiff (-MathPI) = -MathPI :=
    wrapDiff_eq_self _ (le_refl _) (by norm_num [MathPI])
  refine ⟨?_, ?_, ?_⟩
  · rw [updatePlayerVisual]
    norm_num [reconcileBody, copyBody]
    rw [growBody]
    norm_num
    rw [shrinkBody]
    norm_num [eHalf]
  · have e1 : MathPI / 2 - MathPI / 2 * 3 = -MathPI := by ring
    rw [e1, eNegPi, sub_zero, eHalf]
    rw [abs_of_nonpos (by norm_num [MathPI]), abs_of_nonneg (by norm_num [MathPI])]
    norm_num [MathPI]
  · rw [eNegPi]
    exact lt_irrefl _

/-- Concrete authoritative player for the `claim_C4_witness` boundary
example: heading `−3.1`. -/
def c4Player : SrvPlayer := ⟨[⟨0, 0⟩], -31 / 10, 0⟩

/-- Concrete pre-step visual for the C4 witness: heading `3.1`. -/
def c4Vis : VisualPlayer := ⟨0, 0, 31 / 10, [⟨0, 0⟩]⟩

/-- Concrete post-step visual for the C4 witness: the raw difference `−6.2`
wraps to the short arc `2π − 6.2 > 0`, so the heading moves up. -/
def c4Vis2 : VisualPlayer :=
  ⟨0, 0, 31 / 10 + (2 * MathPI - 62 / 10) * (10 * (1 / 100)), [⟨0, 0⟩]⟩

/-- Witness for `claim_C4_amended`: the spec's boundary example,
authoritative angle `−3.1` against visual angle `3.1` with `dt = 1/100`. -/
theorem claim_C4_witness :
    (0 : ℚ) ≤ 1 / 100 ∧ (1 / 100 : ℚ) ≤ 1 / 5 ∧
    updatePlayerVisual (1 / 100) c4Player (some c4Vis) = some c4Vis2 ∧
    ((-MathPI ≤ wrapDiff (c4Player.angle - c4Vis.angle)
        ∧ wrapDiff (c4Player.angle - c4Vis.angle) ≤ MathPI)
      ∧ |wrapDiff (c4Player.angle - c4Vis2.angle)|
          ≤ |wrapDiff (c4Player.angle - c4Vis.angle)|) := by
  have h1 : ¬ MathPI < (-(31 / 5) : ℚ) := by norm_num [MathPI]
  have h2 : (-(31 / 5) : ℚ) < -MathPI := by norm_num [MathPI]
  have h3 : ¬ ((-(31 / 5) : ℚ) + 2 * MathPI < -MathPI) := by norm_num [MathPI]
  have eW : wrapDiff (-(31 / 5) : ℚ) = 2 * MathPI - 31 / 5 := by
    rw [wrapDiff, wrapDown, dif_neg h1, wrapUp, dif_pos h2, wrapUp, dif_neg h3]
    ring
  have hEval : updatePlayerVisual (1 / 100) c4Player (some c4Vis)
      = some c4Vis2 := by
    rw [c4Player, c4Vis, c4Vis2, updatePlayerVisual]
    norm_num [reconcileBody, copyBody]
    rw [growBody]
    norm_num
    rw [shrinkBody]
    norm_num
    exact eW
  exact ⟨by norm_num, by norm_num, hEval,
    claim_C4_amended (1 / 100) c4Player c4Vis c4Vis2
      (by norm_num) (by norm_num) hEval⟩

/-- C1 (amended): the lerp fraction `10·dt` is unclamped, so the claimed
monotone convergence only holds for `0 < dt ≤ 1/10`: for every
authoritative/visual head pair at positive distance at most 500 and every
`dt` in that range, one interpolation step of `updateVisuals` strictly
decreases the squared head distance and never overshoots — each coordinate
gap keeps its sign and its magnitude does not grow. -/
theorem claim_C1_amended (dt : ℚ) (p : SrvPlayer) (vis vis' : VisualPlayer)
    (th : Point) (rest : List Point) (hb : p.body = th :: rest)
    (hdt0 : 0 < dt) (hdt : dt ≤ 1 / 10)
    (hpos : 0 < (th.x - vis.x) ^ 2 + (th.y - vis.y) ^ 2)
    (hnear : (th.x - vis.x) ^ 2 + (th.y - vis.y) ^ 2 ≤ 500 ^ 2)
    (hres : updatePlayerVisual dt p (some vis) = some vis') :
    ((th.x - vis'.x) ^ 2 + (th.y - vis'.y) ^ 2
        < (th.x - vis.x) ^ 2 + (th.y - vis.y) ^ 2)
    ∧ 0 ≤ (th.x - vis'.x) * (th.x - vis.x)
    ∧ 0 ≤ (th.y - vis'.y) * (th.y - vis.y)
    ∧ |th.x - vis'.x| ≤ |th.x - vis.x|
    ∧ |th.y - vis'.y| ≤ |th.y - vis.y| := by
  rw [updatePlayerVisual, hb] at hres
  dsimp only at hres
  rw [if_neg (not_lt.mpr hnear), Option.some.injEq] at hres
  rw [← hres]
  dsimp only
  have ex : th.x - (vis.x + (th.x - vis.x) * (10 * dt))
      = (th.x - vis.x) * (1 - 10 * dt) := by ring
  have ey : th.y - (vis.y + (th.y - vis.y) * (10 * dt))
      = (th.y - vis.y) * (1 - 10 * dt) := by ring
  have hc0 : 0 ≤ 1 - 10 * dt := by linarith
  have hc1 : 1 - 10 * dt < 1 := by linarith
  rw [ex, ey]
  refine ⟨?_, ?_, ?_, ?_, ?_⟩
  · have hcsq : (1 - 10 * dt) ^ 2 < 1 := by nlinarith
    calc ((th.x - vis.x) * (1 - 10 * dt)) ^ 2
          + ((th.y - vis.y) * (1 - 10 * dt)) ^ 2
        = (1 - 10 * dt) ^ 2 * ((th.x - vis.x) ^ 2 + (th.y - vis.y) ^ 2) := by
          ring
      _ < 1 * ((th.x - vis.x) ^ 2 + (th.y - vis.y) ^ 2) :=
          mul_lt_mul_of_pos_right hcsq hpos
      _ = (th.x - vis.x) ^ 2 + (th.y - vis.y) ^ 2 := one_mul _
  · nlinarith [sq_nonneg (th.x - vis.x)]
  · nlinarith [sq_nonneg (th.y - vis.y)]
  · rw [abs_mul, abs_of_nonneg hc0]
    calc |th.x - vis.x| * (1 - 10 * dt)
        ≤ |th.x - vis.x| * 1 :=
          mul_le_mul_of_nonneg_left (by linarith) (abs_nonneg _)
      _ = |th.x - vis.x| := mul_one _
  · rw [abs_mul, abs_of_nonneg hc0]
    calc |th.y - vis.y| * (1 - 10 * dt)
        ≤ |th.y - vis.y| * 1 :=
          mul_le_mul_of_nonneg_left (by linarith) (abs_nonneg _)
      _ = |th.y - vis.y| := mul_one _

/-- C1 as stated is false: at `dt = 1/5 ≥ 0`, with the authoritative head
at `(100, 0)` and the visual head at `(0, 0)` (distance `100 ≤ 500`), the
unclamped step moves the visual head to `(200, 0)`, overshooting the target
and leaving the head distance at 100 instead of strictly decreasing it. -/
theorem claim_C1_counterexample :
    updatePlayerVisual (1 / 5) ⟨[⟨100, 0⟩], 0, 0⟩ (some ⟨0, 0, 0, [⟨0, 0⟩]⟩)
      = some ⟨200, 0, 0, [⟨200, 0⟩]⟩
    ∧ ((100 : ℚ) - 0) ^ 2 + ((0 : ℚ) - 0) ^ 2 ≤ 500 ^ 2
    ∧ ¬(((100 : ℚ) - 200) ^ 2 + ((0 : ℚ) - 0) ^ 2
        < ((100 : ℚ) - 0) ^ 2 + ((0 : ℚ) - 0) ^ 2) := by
  refine ⟨?_, by norm_num, by norm_num⟩
  rw [updatePlayerVisual]
  norm_num [reconcileBody, copyBody]
  rw [growBody]
  norm_num
  rw [shrinkBody]
  norm_num [wrapDiff_zero]

/-- Concrete authoritative player for the C1 witness. -/
def c1Player : SrvPlayer := ⟨[⟨100, 0⟩], 0, 0⟩

/-- Authoritative head of `c1Player`. -/
def c1Head : Point := ⟨100, 0⟩

/-- Concrete pre-step visual for the C1 witness. -/
def c1Vis : VisualPlayer := ⟨0, 0, 0, [⟨0, 0⟩]⟩

/-- Concrete post-step visual for the C1 witness (`dt = 1/20`, fraction
`1/2`). -/
def c1Vis2 : VisualPlayer := ⟨50, 0, 0, [⟨50, 0⟩]⟩

/-- Witness for `claim_C1_amended` at `dt = 1/20`. -/
theorem claim_C1_witness :
    (0 : ℚ) < 1 / 20 ∧ (1 / 20 : ℚ) ≤ 1 / 10
    ∧ 0 < (c1Head.x - c1Vis.x) ^ 2 + (c1Head.y - c1Vis.y) ^ 2
    ∧ (c1Head.x - c1Vis.x) ^ 2 + (c1Head.y - c1Vis.y) ^ 2 ≤ 500 ^ 2
    ∧ updatePlayerVisual (1 / 20) c1Player (some c1Vis) = some c1Vis2
    ∧ (((c1Head.x - c1Vis2.x) ^ 2 + (c1Head.y - c1Vis2.y) ^ 2
          < (c1Head.x - c1Vis.x) ^ 2 + (c1Head.y - c1Vis.y) ^ 2)
        ∧ 0 ≤ (c1Head.x - c1Vis2.x) * (c1Head.x - c1Vis.x)
        ∧ 0 ≤ (c1Head.y - c1Vis2.y) * (c1Head.y - c1Vis.y)
        ∧ |c1Head.x - c1Vis2.x| ≤ |c1Head.x - c1Vis.x|
        ∧ |c1Head.y - c1Vis2.y| ≤ |c1Head.y - c1Vis.y|) := by
  have hEval : updatePlayerVisual (1 / 20) c1Player (some c1Vis)
      = some c1Vis2 := by
    rw [c1Player, c1Vis, c1Vis2, updatePlayerVisual]
    norm_num [reconcileBody, copyBody]
    rw [growBody]
    norm_num
    rw [shrinkBody]
    norm_num [wrapDiff_zero]
  exact ⟨by norm_num, by norm_num, by norm_num [c1Head, c1Vis],
    by norm_num [c1Head, c1Vis], hEval,
    claim_C1_amended (1 / 20) c1Player c1Vis c1Vis2 c1Head [] rfl
      (by norm_num) (by norm_num) (by norm_num [c1Head, c1Vis])
      (by norm_num [c1Head, c1Vis]) hEval⟩

/-! ### Teleport snap and body-length reconciliation -/

theorem copyBody_id (b : List Point) : copyBody b = b :=
  List.map_id' b

/-- C2: for every head pair at Euclidean distance above 500 and every `dt`,
one interpolation step of `updateVisuals` snaps the whole visual state —
head position, angle, and a fresh copy of the full body — to the
authoritative state, so the post-step head distance is exactly 0. -/
theorem claim_C2_snap (dt : ℚ) (p : SrvPlayer) (vis vis' : VisualPlayer)
    (th : Point) (rest : List Point) (hb : p.body = th :: rest)
    (hfar : 500 ^ 2 < (th.x - vis.x) ^ 2 + (th.y - vis.y) ^ 2)
    (hres : updatePlayerVisual dt p (some vis) = some vis') :
    vis'.x = th.x ∧ vis'.y = th.y ∧ vis'.angle = p.angle
    ∧ vis'.body = p.body
    ∧ (th.x - vis'.x) ^ 2 + (th.y - vis'.y) ^ 2 = 0 := by
  rw [updatePlayerVisual, hb] at hres
  dsimp only at hres
  rw [if_pos hfar, Option.some.injEq] at hres
  rw [← hres]
  dsimp only
  refine ⟨rfl, rfl, rfl, ?_, by ring⟩
  rw [copyBody_id]
  exact hb.symm

/-- Concrete authoritative player for the C2 witness, 1000 units away. -/
def c2Player : SrvPlayer := ⟨[⟨1000, 0⟩], 2, 7⟩

/-- Authoritative head of `c2Player`. -/
def c2Head : Point := ⟨1000, 0⟩

/-- Concrete pre-step visual for the C2 witness. -/
def c2Vis : VisualPlayer := ⟨0, 0, 0, [⟨0, 0⟩]⟩

/-- Concrete post-step visual for the C2 witness: the snapped state. -/
def c2Vis2 : VisualPlayer := ⟨1000, 0, 2, [⟨1000, 0⟩]⟩

/-- Witness for `claim_C2_snap` at distance 1000 and `dt = 1/3`. -/
theorem claim_C2_witness :
    (500 : ℚ) ^ 2 < (c2Head.x - c2Vis.x) ^ 2 + (c2Head.y - c2Vis.y) ^ 2
    ∧ updatePlayerVisual (1 / 3) c2Player (some c2Vis) = some c2Vis2
    ∧ (c2Vis2.x = c2Head.x ∧ c2Vis2.y = c2Head.y ∧ c2Vis2.angle = c2Player.angle
        ∧ c2Vis2.body = c2Player.body
        ∧ (c2Head.x - c2Vis2.x) ^ 2 + (c2Head.y - c2Vis2.y) ^ 2 = 0) := by
  have hEval : updatePlayerVisual (1 / 3) c2Player (some c2Vis)
      = some c2Vis2 := by
    rw [c2Player, c2Vis, c2Vis2, updatePlayerVisual]
    norm_num [copyBody]
  exact ⟨by norm_num [c2Head, c2Vis], hEval,
    claim_C2_snap (1 / 3) c2Player c2Vis c2Vis2 c2Head [] rfl
      (by norm_num [c2Head, c2Vis]) hEval⟩

theorem growBody_length (b : List Point) (n : Nat) :
    (growBody b n).length = max b.length n := by
  induction b, n using growBody.induct with
  | case1 b n h ih =>
    rw [growBody, dif_pos h]
    rw [ih]
    simp only [List.length_append, List.length_cons, List.length_nil]
    omega
  | case2 b n h =>
    rw [growBody, dif_neg h]
    omega

theorem shrinkBody_length (b : List Point) (n : Nat) :
    (shrinkBody b n).length = min b.length n := by
  induction b, n using shrinkBody.induct with
  | case1 b n h ih =>
    rw [shrinkBody, dif_pos h]
    rw [ih]
    simp only [List.length_dropLast]
    omega
  | case2 b n h =>
    rw [shrinkBody, dif_neg h]
    omega

/-- After both loops the reconciled body has exactly the authoritative
length. -/
theorem reconcileBody_length (b : List Point) (n : Nat) :
    (reconcileBody b n).length = n := by
  rw [reconcileBody, shrinkBody_length, growBody_length]
  omega

/-- The grow loop only appends copies of the current tail point. -/
theorem growBody_eq_append (b : List Point) (n : Nat) (hle : b.length ≤ n) :
    growBody b n = b ++ List.replicate (n - b.length) (b.getLastD ⟨0, 0⟩) := by
  induction b, n using growBody.induct with
  | case1 b n h ih =>
    rw [growBody, dif_pos h]
    rw [ih (by simpa using Nat.succ_le_of_lt h)]
    rw [List.getLastD_concat]
    have hlen : (b ++ [b.getLastD ⟨0, 0⟩]).length = b.length + 1 := by
      simp
    rw [hlen, List.append_assoc]
    congr 1
    have hrep : n - b.length = (n - (b.length + 1)) + 1 := by omega
    rw [hrep, List.replicate_succ]
    rfl
  | case2 b n h =>
    rw [growBody, dif_neg h]
    have : n - b.length = 0 := by omega
    rw [this, List.replicate]
    simp

/-- The shrink loop only drops points from the tail. -/
theorem shrinkBody_eq_take (b : List Point) (n : Nat) (hle : n ≤ b.length) :
    shrinkBody b n = b.take n := by
  induction b, n using shrinkBody.induct with
  | case1 b n h ih =>
    rw [shrinkBody, dif_pos h]
    rw [ih (by simp only [List.length_dropLast]; omega)]
    rw [List.dropLast_eq_take, List.take_take]
    congr 1
    omega
  | case2 b n h =>
    rw [shrinkBody, dif_neg h]
    exact (List.take_of_length_le (by omega)).symm

/-- C3: within one `updateVisuals` step the visual body is brought to the
authoritative body length before the index-wise lerp runs: the result's
body always has the authoritative length, growth only duplicates the
current tail point, and shrinking only drops tail points. -/
theorem claim_C3_reconcile (dt : ℚ) (p : SrvPlayer) (vis vis' : VisualPlayer)
    (th : Point) (rest : List Point) (hb : p.body = th :: rest)
    (hvb : vis.body ≠ [])
    (hres : updatePlayerVisual dt p (some vis) = some vis') :
    vis'.body.length = p.body.length
    ∧ (vis.body.length ≤ p.body.length →
        reconcileBody vis.body p.body.length
          = vis.body ++ List.replicate (p.body.length - vis.body.length)
              (vis.body.getLastD ⟨0, 0⟩))
    ∧ (p.body.length ≤ vis.body.length →
        reconcileBody vis.body p.body.length = vis.body.take p.body.length) := by
  refine ⟨?_, ?_, ?_⟩
  · rw [updatePlayerVisual, hb] at hres
    dsimp only at hres
    split at hres
    · rw [Option.some.injEq] at hres
      rw [← hres]
      dsimp only
      rw [copyBody_id, hb]
    · rw [Option.some.injEq] at hres
      rw [← hres]
      dsimp only
      rw [List.length_zipWith, reconcileBody_length, hb]
      simp
  · intro hle
    rw [reconcileBody, growBody_eq_append _ _ hle]
    rw [shrinkBody, dif_neg (by
      simp only [List.length_append, List.length_replicate]
      omega)]
  · intro hle
    rw [reconcileBody]
    have hnog : growBody vis.body p.body.length = vis.body := by
      rw [growBody, dif_neg (by omega)]
    rw [hnog, shrinkBody_eq_take _ _ hle]

/-- Concrete authoritative player for the C3 witness: two body points. -/
def c3Player : SrvPlayer := ⟨[⟨0, 0⟩, ⟨3, 4⟩], 0, 0⟩

/-- Authoritative head of `c3Player`. -/
def c3Head : Point := ⟨0, 0⟩

/-- Concrete pre-step visual for the C3 witness: one body point, so the
grow loop must run once. -/
def c3Vis : VisualPlayer := ⟨0, 0, 0, [⟨1, 1⟩]⟩

/-- Concrete post-step visual for the C3 witness (`dt = 1/10`, fraction 1). -/
def c3Vis2 : VisualPlayer := ⟨0, 0, 0, [⟨0, 0⟩, ⟨3, 4⟩]⟩

/-- Witness for `claim_C3_reconcile`, growing a 1-point visual body to the
2-point authoritative length in a single frame. -/
theorem claim_C3_witness :
    c3Vis.body ≠ []
    ∧ updatePlayerVisual (1 / 10) c3Player (some c3Vis) = some c3Vis2
    ∧ (c3Vis2.body.length = c3Player.body.length
      ∧ (c3Vis.body.length ≤ c3Player.body.length →
          reconcileBody c3Vis.body c3Player.body.length
            = c3Vis.body
              ++ List.replicate (c3Player.body.length - c3Vis.body.length)
                (c3Vis.body.getLastD ⟨0, 0⟩))
      ∧ (c3Player.body.length ≤ c3Vis.body.length →
          reconcileBody c3Vis.body c3Player.body.length
            = c3Vis.body.take c3Player.body.length)) := by
  have hEval : updatePlayerVisual (1 / 10) c3Player (some c3Vis)
      = some c3Vis2 := by
    rw [c3Player, c3Vis, c3Vis2, updatePlayerVisual]
    norm_num [reconcileBody, copyBody]
    rw [growBody]
    norm_num [List.getLastD]
    rw [growBody]
    norm_num
    rw [shrinkBody]
    norm_num [wrapDiff_zero]
  exact ⟨by simp [c3Vis], hEval,
    claim_C3_reconcile (1 / 10) c3Player c3Vis c3Vis2 c3Head [⟨3, 4⟩] rfl
      (by simp [c3Vis]) hEval⟩

/-! ### First-sighting creation path -/

theorem zipWith_lerp_self (ls : ℚ) (l : List Point) :
    List.zipWith (fun pb vb =>
      (⟨vb.x + (pb.x - vb.x) * ls, vb.y + (pb.y - vb.y) * ls⟩ : Point)) l l
      = l := by
  induction l with
  | nil => rfl
  | cons q rest ih =>
    simp only [List.zipWith_cons_cons, ih]
    congr 1
    have ex : q.x + (q.x - q.x) * ls = q.x := by ring
    have ey : q.y + (q.y - q.y) * ls = q.y := by ring
    rw [ex, ey]

/-- C10: on first sighting (no visual entry yet), one `updateVisuals` step
creates a visual player whose head equals the authoritative body's first
point, whose angle equals the authoritative angle and whose body is a
pointwise-equal deep copy of the authoritative body (zero initial
interpolation error survives the step exactly); a player with an empty
body is never given a visual entry. -/
theorem claim_C10_creation (dt : ℚ) (p : SrvPlayer) :
    (p.body = [] → updatePlayerVisual dt p none = none)
    ∧ (∀ th rest, p.body = th :: rest →
        updatePlayerVisual dt p none
          = some ⟨th.x, th.y, p.angle, p.body⟩) := by
  constructor
  · intro hb
    rw [updatePlayerVisual, hb]
  · intro th rest hb
    rw [updatePlayerVisual, hb]
    dsimp only
    rw [copyBody_id]
    have hrec : reconcileBody (th :: rest) (th :: rest).length = th :: rest := by
      rw [reconcileBody, growBody, dif_neg (lt_irrefl _), shrinkBody,
        dif_neg (lt_irrefl _)]
    rw [hrec]
    have h0 : ((th.x - th.x) ^ 2 + (th.y - th.y) ^ 2 : ℚ) = 0 := by ring
    rw [h0, if_neg (by norm_num)]
    have ha : wrapDiff (p.angle - p.angle) = 0 := by
      rw [sub_self, wrapDiff_zero]
    rw [ha, zipWith_lerp_self]
    simp

/-- Concrete player with an empty body for the C10 witness. -/
def c10Empty : SrvPlayer := ⟨[], 1, 2⟩

/-- Concrete player for the C10 witness. -/
def c10Player : SrvPlayer := ⟨[⟨5, 6⟩], 7, 0⟩

/-- Authoritative head of `c10Player`. -/
def c10Head : Point := ⟨5, 6⟩

/-- Witness for `claim_C10_creation`: an empty-body player gets no visual
entry, and a freshly sighted player gets an exact copy of the
authoritative state. -/
theorem claim_C10_witness :
    updatePlayerVisual (1 / 4) c10Empty none = none
    ∧ updatePlayerVisual (1 / 4) c10Player none
      = some ⟨c10Head.x, c10Head.y, c10Player.angle, c10Player.body⟩ :=
  ⟨(claim_C10_creation (1 / 4) c10Empty).1 rfl,
   (claim_C10_creation (1 / 4) c10Player).2 c10Head [] rfl⟩

/-! ### Camera target scale from `game_tick` -/

/-- The server-supplied config object (`init_config`), with the client's
defaults until it loads. -/
structure GameConfig where
  MAP_SIZE : ℚ
  DEBUG_MODE : Bool
  ZOOM_BASE : ℚ
  ZOOM_DAMPENER : ℚ
deriving Repr, DecidableEq

/-- The client's default config (class initializer). -/
def defaultConfig : GameConfig := ⟨5000, false, 18 / 10, 2500⟩

/-- The `game_tick` handler's target-scale update (lines 121–128):
`if (me && !this.isDead()) { ... this.targetScale = Math.max(0.4, base /
(1 + me.length / damp)); }` with `base = config.ZOOM_BASE || 1.8` and
`damp = config.ZOOM_DAMPENER || 2500` (JS `||` falls back on the numeric
falsy value 0). -/
def tickTargetScale (cfg : GameConfig) (me : Option SrvPlayer) (isDead : Bool)
    (old : ℚ) : ℚ :=
  match me with
  | none => old
  | some m =>
    if isDead then old
    else
      let base := if cfg.ZOOM_BASE = 0 then 18 / 10 else cfg.ZOOM_BASE
      let damp := if cfg.ZOOM_DAMPENER = 0 then 2500 else cfg.ZOOM_DAMPENER
      max (4 / 10) (base / (1 + m.length / damp))

/-- C6: on a `game_tick` with the local player present and alive, the
target scale becomes `max(0.4, ZOOM_BASE / (1 + length / ZOOM_DAMPENER))`
built from the server-supplied config constants; that function of the
length is monotonically decreasing, equals `ZOOM_BASE` at length 0, never
drops below the 0.4 floor, and the target is untouched when the player is
missing or dead. -/
theorem claim_C6_targetScale (cfg : GameConfig) (m : SrvPlayer) (old : ℚ)
    (hbase : 4 / 10 ≤ cfg.ZOOM_BASE) (hdamp : 0 < cfg.ZOOM_DAMPENER) :
    tickTargetScale cfg (some m) false old
      = max (4 / 10) (cfg.ZOOM_BASE / (1 + m.length / cfg.ZOOM_DAMPENER))
    ∧ 4 / 10 ≤ tickTargetScale cfg (some m) false old
    ∧ (∀ m2 : SrvPlayer, 0 ≤ m.length → m.length ≤ m2.length →
        tickTargetScale cfg (some m2) false old
          ≤ tickTargetScale cfg (some m) false old)
    ∧ (m.length = 0 → tickTargetScale cfg (some m) false old = cfg.ZOOM_BASE)
    ∧ (∀ d : Bool, tickTargetScale cfg none d old = old)
    ∧ tickTargetScale cfg (some m) true old = old := by
  have hb0 : cfg.ZOOM_BASE ≠ 0 := by
    intro h
    rw [h] at hbase
    norm_num at hbase
  have hd0 : cfg.ZOOM_DAMPENER ≠ 0 := ne_of_gt hdamp
  have heq : ∀ m1 : SrvPlayer, tickTargetScale cfg (some m1) false old
      = max (4 / 10) (cfg.ZOOM_BASE / (1 + m1.length / cfg.ZOOM_DAMPENER)) := by
    intro m1
    rw [tickTargetScale]
    dsimp only
    rw [if_neg (by simp), if_neg hb0, if_neg hd0]
  refine ⟨heq m, ?_, ?_, ?_, fun d => rfl, rfl⟩
  · rw [heq m]
    exact le_max_left _ _
  · intro m2 h0 hle
    rw [heq m, heq m2]
    apply max_le_max (le_refl _)
    apply div_le_div_of_nonneg_left (by linarith) ?_ ?_
    · have : 0 ≤ m.length / cfg.ZOOM_DAMPENER := by positivity
      linarith
    · apply add_le_add (le_refl _)
      gcongr
  · intro h0
    rw [heq m, h0]
    norm_num
    linarith

/-- Concrete player of length 2500 for the C6 witness. -/
def c6Player : SrvPlayer := ⟨[], 0, 2500⟩

/-- Witness for `claim_C6_targetScale` at the spec's example
`ZOOM_BASE = 1.8`, `ZOOM_DAMPENER = 2500`, `length = 2500`, giving target
`0.9`. -/
theorem claim_C6_witness :
    (4 / 10 : ℚ) ≤ defaultConfig.ZOOM_BASE
    ∧ (0 : ℚ) < defaultConfig.ZOOM_DAMPENER
    ∧ tickTargetScale defaultConfig (some c6Player) false 1
      = max (4 / 10) (defaultConfig.ZOOM_BASE
          / (1 + c6Player.length / defaultConfig.ZOOM_DAMPENER))
    ∧ tickTargetScale defaultConfig (some c6Player) false 1 = 9 / 10 := by
  have happ := claim_C6_targetScale defaultConfig c6Player 1
    (by norm_num [defaultConfig]) (by norm_num [defaultConfig])
  refine ⟨by norm_num [defaultConfig], by norm_num [defaultConfig],
    happ.1, ?_⟩
  rw [happ.1]
  norm_num [defaultConfig, c6Player]

/-! ### Food map and `game_tick` food diffs -/

/-- A food item as consumed by the renderer (`f.x`, `f.y`, `f.color`,
`f.is_loot`). -/
structure Food where
  x : ℚ
  y : ℚ
  color : String
  isLoot : Bool
deriving Repr, DecidableEq

/-- Reading `this.food[fid]` from the id-keyed food object, modelled as an
association list. -/
def lookupFood (m : List (String × Food)) (k : String) : Option Food :=
  (m.find? (fun kv => kv.1 == k)).map (fun kv => kv.2)

/-- The statement `delete this.food[fid]` of the `game_tick` handler. -/
def eraseFood (m : List (String × Food)) (fid : String) : List (String × Food) :=
  m.filter (fun kv => kv.1 != fid)

/-- The loop `gameState.food_diff.removed.forEach((fid) => { delete
this.food[fid]; })`. -/
def removeFoods (m : List (String × Food)) (removed : List String) :
    List (String × Food) :=
  removed.foldl eraseFood m

/-- One key-value assignment performed by `Object.assign`: overwrite the
value under an existing key, else append the new entry. -/
def upsertFood (m : List (String × Food)) (kv : String × Food) :
    List (String × Food) :=
  if m.any (fun e => e.1 == kv.1) then
    m.map (fun e => if e.1 == kv.1 then kv else e)
  else m ++ [kv]

/-- The statement `Object.assign(this.food, gameState.food_diff.added)`. -/
def assignFoods (m : List (String × Food)) (added : List (String × Food)) :
    List (String × Food) :=
  added.foldl upsertFood m

/-- The whole `food_diff` application of the `game_tick` handler
(lines 108–117): removals first, then additions. -/
def applyFoodDiff (m : List (String × Food)) (removed : List String)
    (added : List (String × Food)) : List (String × Food) :=
  assignFoods (removeFoods m removed) added

theorem lookupFood_cons (kv : String × Food) (m : List (String × Food))
    (k : String) :
    lookupFood (kv :: m) k = if kv.1 = k then some kv.2 else lookupFood m k := by
  simp only [lookupFood, List.find?_cons]
  by_cases h : kv.1 = k
  · simp [h]
  · have hb : (kv.1 == k) = false := by simp [h]
    simp [hb, h]

theorem lookupFood_nil (k : String) : lookupFood [] k = none := rfl

theorem lookup_eraseFood (m : List (String × Food)) (fid k : String) :
    lookupFood (eraseFood m fid) k
      = if k = fid then none else lookupFood m k := by
  induction m with
  | nil => simp [eraseFood, lookupFood]
  | cons kv rest ih =>
    by_cases h1 : kv.1 = fid
    · have e1 : eraseFood (kv :: rest) fid = eraseFood rest fid := by
        simp [eraseFood, List.filter_cons, h1]
      rw [e1, ih, lookupFood_cons]
      by_cases h2 : k = fid
      · simp [h2]
      · have h3 : ¬ kv.1 = k := fun hc => h2 (hc ▸ h1 : k = fid)
        simp [h2, h3]
    · have e1 : eraseFood (kv :: rest) fid = kv :: eraseFood rest fid := by
        simp [eraseFood, List.filter_cons, h1]
      rw [e1, lookupFood_cons, lookupFood_cons]
      by_cases h3 : kv.1 = k
      · have hk : ¬ k = fid := fun hc => h1 (h3.trans hc)
        simp [h3, hk]
      · simp [h3, ih]

theorem lookup_removeFoods (removed : List String)
    (m : List (String × Food)) (k : String) :
    lookupFood (removeFoods m removed) k
      = if k ∈ removed then none else lookupFood m k := by
  induction removed generalizing m with
  | nil => simp [removeFoods]
  | cons fid rest ih =>
    show lookupFood (removeFoods (eraseFood m fid) rest) k = _
    rw [ih, lookup_eraseFood]
    by_cases h1 : k ∈ rest
    · simp [h1]
    · by_cases h2 : k = fid
      · simp [h1, h2]
      · simp [h1, h2]

theorem lookup_map_upsert_ne (kv : String × Food) (m : List (String × Food))
    (k : String) (hne : ¬ k = kv.1) :
    lookupFood (m.map (fun e => if e.1 == kv.1 then kv else e)) k
      = lookupFood m k := by
  induction m with
  | nil => rfl
  | cons e rest ih =>
    simp only [List.map_cons]
    by_cases he : e.1 = kv.1
    · have hf : (if e.1 == kv.1 then kv else e) = kv := by simp [he]
      rw [hf, lookupFood_cons, lookupFood_cons, ih]
      have h1 : ¬ kv.1 = k := fun hc => hne hc.symm
      have h2 : ¬ e.1 = k := fun hc => hne (hc.symm.trans he)
      simp [h1, h2]
    · have hf : (if e.1 == kv.1 then kv else e) = e := by simp [he]
      rw [hf, lookupFood_cons, lookupFood_cons, ih]

theorem lookup_map_upsert_eq (kv : String × Food) (m : List (String × Food))
    (hany : m.any (fun e => e.1 == kv.1) = true) :
    lookupFood (m.map (fun e => if e.1 == kv.1 then kv else e)) kv.1
      = some kv.2 := by
  induction m with
  | nil => simp at hany
  | cons e rest ih =>
    simp only [List.map_cons]
    by_cases he : e.1 = kv.1
    · have hf : (if e.1 == kv.1 then kv else e) = kv := by simp [he]
      rw [hf, lookupFood_cons]
      simp
    · have hf : (if e.1 == kv.1 then kv else e) = e := by simp [he]
      rw [hf, lookupFood_cons]
      have hrest : rest.any (fun e => e.1 == kv.1) = true := by
        simp only [List.any_cons] at hany
        rcases Bool.or_eq_true_iff.mp hany with h | h
        · exact absurd (by simpa using h) he
        · exact h
      rw [if_neg he, ih hrest]

theorem lookup_append_single (kv : String × Food) (m : List (String × Food))
    (k : String) :
    lookupFood (m ++ [kv]) k
      = match lookupFood m k with
        | some v => some v
        | none => if k = kv.1 then some kv.2 else none := by
  induction m with
  | nil =>
    rw [List.nil_append, lookupFood_cons, lookupFood_nil]
    by_cases h : kv.1 = k
    · rw [if_pos h]
      simp [h.symm]
    · rw [if_neg h]
      have h2 : ¬ k = kv.1 := fun hc => h hc.symm
      simp [h2]
  | cons e rest ih =>
    simp only [List.cons_append, lookupFood_cons]
    by_cases h : e.1 = k
    · simp [h]
    · simp only [if_neg h, ih]

theorem lookup_upsertFood (kv : String × Food) (m : List (String × Food))
    (k : String) :
    lookupFood (upsertFood m kv) k
      = if k = kv.1 then some kv.2 else lookupFood m k := by
  rw [upsertFood]
  by_cases hany : m.any (fun e => e.1 == kv.1) = true
  · rw [if_pos hany]
    by_cases hk : k = kv.1
    · rw [if_pos hk, hk, lookup_map_upsert_eq kv m hany]
    · rw [if_neg hk, lookup_map_upsert_ne kv m k hk]
  · rw [if_neg hany, lookup_append_single]
    by_cases hk : k = kv.1
    · have hnone : lookupFood m k = none := by
        rw [lookupFood]
        have hfind : m.find? (fun e => e.1 == k) = none := by
          rw [List.find?_eq_none]
          intro e he hc
          apply hany
          apply List.any_eq_true.mpr
          refine ⟨e, he, ?_⟩
          rw [← hk]
          exact hc
        rw [hfind]
        rfl
      rw [hnone]
    · cases hm : lookupFood m k with
      | none => simp [hk]
      | some v => exact (if_neg hk).symm

theorem lookup_assignFoods (added : List (String × Food))
    (m : List (String × Food)) (k : String)
    (hnodup : (added.map Prod.fst).Nodup) :
    lookupFood (assignFoods m added) k
      = match added.find? (fun kv => kv.1 == k) with
        | some kv => some kv.2
        | none => lookupFood m k := by
  induction added generalizing m with
  | nil => rfl
  | cons kv rest ih =>
    have hnodup2 : (rest.map Prod.fst).Nodup := by
      simp only [List.map_cons, List.nodup_cons] at hnodup
      exact hnodup.2
    have hnotin : kv.1 ∉ rest.map Prod.fst := by
      simp only [List.map_cons, List.nodup_cons] at hnodup
      exact hnodup.1
    show lookupFood (assignFoods (upsertFood m kv) rest) k = _
    rw [ih _ hnodup2]
    by_cases hk : kv.1 = k
    · rw [List.find?_cons_of_pos _ (by simp [hk])]
      have hrest : rest.find? (fun e => e.1 == k) = none := by
        rw [List.find?_eq_none]
        intro e he hc
        apply hnotin
        refine List.mem_map.mpr ⟨e, he, ?_⟩
        have : e.1 = k := by simpa using hc
        rw [this, hk]
      rw [hrest]
      show lookupFood (upsertFood m kv) k = some kv.2
      rw [lookup_upsertFood, if_pos hk.symm]
    · rw [List.find?_cons_of_neg _ (by simp [hk])]
      cases hr : rest.find? (fun e => e.1 == k) with
      | some e => rfl
      | none =>
        show lookupFood (upsertFood m kv) k = lookupFood m k
        rw [lookup_upsertFood, if_neg (fun hc => hk hc.symm)]

/-- C5: applying a `game_tick` food diff yields exactly the prior map with
every removed id deleted, merged with the added entries (characterized per
lookup); removing an id that is not present leaves the map literally
unchanged (a silent no-op, not an error); and when the added and removed id
sets are disjoint, the result is the same whether removals are applied
before or after additions. -/
theorem claim_C5_foodDiff (m : List (String × Food)) (removed : List String)
    (added : List (String × Food)) (k fid : String)
    (hnodup : (added.map Prod.fst).Nodup)
    (hdisj : ∀ kv ∈ added, kv.1 ∉ removed) :
    (lookupFood (applyFoodDiff m removed added) k
      = match added.find? (fun kv => kv.1 == k) with
        | some kv => some kv.2
        | none => if k ∈ removed then none else lookupFood m k)
    ∧ (lookupFood m fid = none → eraseFood m fid = m)
    ∧ lookupFood (removeFoods (assignFoods m added) removed) k
        = lookupFood (applyFoodDiff m removed added) k := by
  have hchar : lookupFood (applyFoodDiff m removed added) k
      = match added.find? (fun kv => kv.1 == k) with
        | some kv => some kv.2
        | none => if k ∈ removed then none else lookupFood m k := by
    rw [applyFoodDiff, lookup_assignFoods _ _ _ hnodup]
    cases hf : added.find? (fun kv => kv.1 == k) with
    | some kv => rfl
    | none => exact lookup_removeFoods removed m k
  refine ⟨hchar, ?_, ?_⟩
  · intro hnone
    have hfind : m.find? (fun e => e.1 == fid) = none := by
      cases hf : m.find? (fun e => e.1 == fid) with
      | none => rfl
      | some e =>
        rw [lookupFood, hf] at hnone
        simp at hnone
    rw [eraseFood]
    apply List.filter_eq_self.mpr
    intro kv hkv
    have := List.find?_eq_none.mp hfind kv hkv
    simpa using this
  · rw [hchar, lookup_removeFoods, lookup_assignFoods _ _ _ hnodup]
    cases hf : added.find? (fun kv => kv.1 == k) with
    | some kv =>
      have hkin : kv ∈ added := List.mem_of_find?_eq_some hf
      have hkk : kv.1 = k := by simpa using List.find?_some hf
      have hnr : k ∉ removed := hkk ▸ hdisj kv hkin
      rw [if_neg hnr]
    | none =>
      by_cases hr : k ∈ removed
      · rw [if_pos hr]
      · rw [if_neg hr]

/-- Concrete prior food map for the C5 witness. -/
def c5Map : List (String × Food) :=
  [("a", ⟨1, 2, "red", false⟩), ("b", ⟨3, 4, "blue", true⟩)]

/-- Concrete removed-id list for the C5 witness; "zz" is not present. -/
def c5Removed : List String := ["b", "zz"]

/-- Concrete added entries for the C5 witness. -/
def c5Added : List (String × Food) := [("c", ⟨5, 6, "green", false⟩)]

/-- Witness for `claim_C5_foodDiff` on a concrete two-entry map with one
removal of a present id, one removal of an absent id, and one addition. -/
theorem claim_C5_witness :
    (c5Added.map Prod.fst).Nodup
    ∧ (∀ kv ∈ c5Added, kv.1 ∉ c5Removed)
    ∧ ((lookupFood (applyFoodDiff c5Map c5Removed c5Added) "c"
        = match c5Added.find? (fun kv => kv.1 == "c") with
          | some kv => some kv.2
          | none => if "c" ∈ c5Removed then none else lookupFood c5Map "c")
      ∧ (lookupFood c5Map "zz" = none → eraseFood c5Map "zz" = c5Map)
      ∧ lookupFood (removeFoods (assignFoods c5Map c5Added) c5Removed) "c"
          = lookupFood (applyFoodDiff c5Map c5Removed c5Added) "c") :=
  ⟨by decide, by decide,
    claim_C5_foodDiff c5Map c5Removed c5Added "c" "zz" (by decide) (by decide)⟩

/-! ### Player state machine (ALIVE / DEAD / SPECTATING) -/

/-- The client component state touched by the event and input handlers
(signals and fields of the `Game` class relevant to the state machine). -/
structure ClientState where
  isConnected : Bool
  myId : String
  isDead : Bool
  finalScore : ℚ
  myScore : ℚ
  spectateMode : Bool
  targetScale : ℚ
  driftAngle : ℚ
  keysPressed : List String
  cfg : GameConfig
  emitted : List String
deriving Repr, DecidableEq

/-- The field initializers of the `Game` class. -/
def initState : ClientState :=
  ⟨false, "", false, 0, 0, false, 1, 0, [], defaultConfig, []⟩

/-- JS `e.key.toLowerCase()` (ASCII keys). -/
def lowerKey (k : String) : String := String.mk (k.data.map Char.toLower)

/-- `this.socketWrapper.emit(name, ...)`: the model records the emitted
event name. -/
def emitEvent (s : ClientState) (name : String) : ClientState :=
  { s with emitted := s.emitted ++ [name] }

/-- `startBoost`: emit `boost_update` when the player has an id and is not
dead. -/
def startBoost (s : ClientState) : ClientState :=
  if s.myId ≠ "" ∧ s.isDead = false then emitEvent s "boost_update" else s

/-- `endBoost`: emit `boost_update` when the player has an id. -/
def endBoost (s : ClientState) : ClientState :=
  if s.myId ≠ "" then emitEvent s "boost_update" else s

/-- `cheatBoost`: emit `cheat_boost` when the player has an id and is not
dead. -/
def cheatBoost (s : ClientState) : ClientState :=
  if s.myId ≠ "" ∧ s.isDead = false then emitEvent s "cheat_boost" else s

/-- The spectator toggle inside `onKeyDown` (lines 581–597): entering
spectator mode emits `enter_spectator`, zooms out and marks the player
dead locally; leaving emits `request_respawn` and marks it alive
locally. -/
def handleKeyDownS (s : ClientState) : ClientState :=
  if s.spectateMode = false then
    { emitEvent s "enter_spectator" with
        spectateMode := true
        targetScale := 2 / 10
        isDead := true }
  else
    { emitEvent s "request_respawn" with
        spectateMode := false
        targetScale := 1
        isDead := false }

/-- The `window:keydown` handler `onKeyDown` (lines 577–604). -/
def onKeyDown (s : ClientState) (key code : String) : ClientState :=
  let s1 := { s with keysPressed := lowerKey key :: s.keysPressed }
  let s2 := if lowerKey key = "s" then handleKeyDownS s1 else s1
  let s3 := if lowerKey key = "c" then cheatBoost s2 else s2
  if code = "Space" then startBoost s3 else s3

/-- The `window:keyup` handler `onKeyUp` (lines 621–625). -/
def onKeyUp (s : ClientState) (key code : String) : ClientState :=
  let s1 := { s with keysPressed := s.keysPressed.filter (fun x => x != lowerKey key) }
  if code = "Space" then endBoost s1 else s1

/-- The `wheel` handler `onWheel` (lines 606–619): spectator-only zoom,
clamped to `[0.05, 5.0]`. -/
def onWheel (s : ClientState) (dy : ℚ) : ClientState :=
  if s.spectateMode = false then s
  else
    let t := s.targetScale + dy * -(2 / 1000)
    { s with targetScale := min (max (5 / 100) t) 5 }

/-- The asynchronous events and inputs the component handles. -/
inductive ClientEvent where
  | connect (sid : Option String)
  | disconnect
  | initConfig (c : GameConfig)
  | initFood
  | death (score drift : ℚ)
  | initPlayer (pid : Option String)
  | gameTick (sid : Option String) (me : Option SrvPlayer)
  | keydown (key code : String)
  | keyup (key code : String)
  | wheel (dy : ℚ)
  | mousedown
  | mouseup
  | mousemove
deriving Repr, DecidableEq

/-- One event dispatch: the socket subscriptions of `ngOnInit` plus the
host listeners, each mirrored on the modelled fields. -/
def step (s : ClientState) (e : ClientEvent) : ClientState :=
  match e with
  | .connect sid =>
    let s1 := { s with isConnected := true }
    match sid with
    | some i => if i ≠ "" then { s1 with myId := i } else s1
    | none => s1
  | .disconnect => { s with isConnected := false }
  | .initConfig c => { s with cfg := c }
  | .initFood => s
  | .death score drift =>
    { s with
        isDead := true
        finalScore := score
        targetScale := 4 / 10
        driftAngle := drift }
  | .initPlayer pid =>
    let s1 := { s with isDead := false }
    let s2 := match pid with
      | some i => if i ≠ "" then { s1 with myId := i } else s1
      | none => s1
    { s2 with targetScale := 1 }
  | .gameTick sid me =>
    let s1 := match sid with
      | some i => if s.myId = "" ∧ i ≠ "" then { s with myId := i } else s
      | none => s
    match me with
    | some m =>
      if s1.isDead = false then
        { s1 with
            myScore := ((⌊m.length⌋ : ℤ) : ℚ)
            targetScale := tickTargetScale s1.cfg (some m) false s1.targetScale }
      else s1
    | none => s1
  | .keydown key code => onKeyDown s key code
  | .keyup key code => onKeyUp s key code
  | .wheel dy => onWheel s dy
  | .mousedown => startBoost s
  | .mouseup => endBoost s
  | .mousemove =>
    if s.myId ≠ "" ∧ s.isDead = false then emitEvent s "input_update" else s

/-- One event dispatch: the socket subscriptions of `ngOnInit` plus the
host listeners, each mirrored on the modelled fields. -/
def stepAll (s : ClientState) (es : List ClientEvent) : ClientState :=
  es.foldl step s


theorem emitEvent_isDead (s : ClientState) (a : String) :
    (emitEvent s a).isDead = s.isDead := rfl

theorem startBoost_isDead (s : ClientState) :
    (startBoost s).isDead = s.isDead := by
  rw [startBoost]
  split <;> rfl

theorem endBoost_isDead (s : ClientState) :
    (endBoost s).isDead = s.isDead := by
  rw [endBoost]
  split <;> rfl

theorem cheatBoost_isDead (s : ClientState) :
    (cheatBoost s).isDead = s.isDead := by
  rw [cheatBoost]
  split <;> rfl

theorem onKeyDown_isDead (s : ClientState) (key code : String) :
    (onKeyDown s key code).isDead
      = if lowerKey key = "s" then !s.spectateMode else s.isDead := by
  simp only [onKeyDown, handleKeyDownS]
  split_ifs <;>
    simp_all [startBoost_isDead, cheatBoost_isDead, emitEvent]

theorem step_isDead (s : ClientState) (e : ClientEvent) :
    (step s e).isDead
      = match e with
        | .death _ _ => true
        | .initPlayer _ => false
        | .keydown key _ =>
          if lowerKey key = "s" then !s.spectateMode else s.isDead
        | _ => s.isDead := by
  cases e with
  | connect sid =>
    cases sid with
    | none => rfl
    | some i =>
      simp only [step]
      split <;> rfl
  | initPlayer pid =>
    cases pid with
    | none => rfl
    | some i =>
      simp only [step]
      split <;> rfl
  | gameTick sid me =>
    simp only [step]
    cases me with
    | none =>
      cases sid with
      | none => rfl
      | some i =>
        dsimp only
        split <;> rfl
    | some m =>
      cases sid with
      | none =>
        dsimp only
        split <;> rfl
      | some i =>
        dsimp only
        split <;> (first | rfl | (split <;> rfl))
  | keydown key code => exact onKeyDown_isDead s key code
  | keyup key code =>
    simp only [step, onKeyUp]
    split <;> simp [endBoost_isDead, emitEvent]
  | wheel dy =>
    simp only [step, onWheel]
    split <;> rfl
  | mousedown => exact startBoost_isDead s
  | mouseup => exact endBoost_isDead s
  | mousemove =>
    simp only [step]
    split <;> rfl
  | disconnect => rfl
  | initConfig c => rfl
  | initFood => rfl
  | death score drift => rfl

theorem keydown_exit_emits (s : ClientState) (key code : String)
    (hS : lowerKey key = "s") (hspec : s.spectateMode = true) :
    "request_respawn" ∈ (step s (ClientEvent.keydown key code)).emitted := by
  simp only [step, onKeyDown, handleKeyDownS, if_pos hS]
  split_ifs <;> simp_all [startBoost, cheatBoost, emitEvent] <;>
    try (split_ifs <;> simp_all)

/-- C7 (amended): the client sets itself alive only on a server
`init_player` notification or on the spectator-toggle exit, which also
emits a `request_respawn`; no other event or input handler ever flips
`isDead` from true to false. -/
theorem claim_C7_amended (s : ClientState) (e : ClientEvent)
    (hdead : s.isDead = true) (halive : (step s e).isDead = false) :
    (∃ pid, e = ClientEvent.initPlayer pid)
    ∨ (∃ key code, e = ClientEvent.keydown key code ∧ lowerKey key = "s"
        ∧ s.spectateMode = true
        ∧ "request_respawn" ∈ (step s e).emitted) := by
  cases e with
  | initPlayer pid => exact Or.inl ⟨pid, rfl⟩
  | keydown key code =>
    simp only [step_isDead] at halive
    by_cases hS : lowerKey key = "s"
    · rw [if_pos hS] at halive
      have hspec : s.spectateMode = true := by
        cases h : s.spectateMode
        · rw [h] at halive
          simp at halive
        · rfl
      exact Or.inr ⟨key, code, rfl, hS, hspec,
        keydown_exit_emits s key code hS hspec⟩
    · rw [if_neg hS] at halive
      rw [hdead] at halive
      simp at halive
  | connect sid =>
    simp only [step_isDead] at halive
    simp_all
  | disconnect =>
    simp only [step_isDead] at halive
    simp_all
  | initConfig c =>
    simp only [step_isDead] at halive
    simp_all
  | initFood =>
    simp only [step_isDead] at halive
    simp_all
  | death score drift =>
    simp only [step_isDead] at halive
    simp_all
  | gameTick sid me =>
    simp only [step_isDead] at halive
    simp_all
  | keyup key code =>
    simp only [step_isDead] at halive
    simp_all
  | wheel dy =>
    simp only [step_isDead] at halive
    simp_all
  | mousedown =>
    simp only [step_isDead] at halive
    simp_all
  | mouseup =>
    simp only [step_isDead] at halive
    simp_all
  | mousemove =>
    simp only [step_isDead] at halive
    simp_all

/-- A dead, spectating state for the C7 witness. -/
def c7Dead : ClientState :=
  { initState with isDead := true, spectateMode := true }

/-- C7 as stated is false: starting from the initial state, pressing `s`
enters spectator mode (locally dead), and pressing `s` again exits it —
the local keydown handler itself sets `isDead` to `false` with no
`init_player` event anywhere in the sequence. -/
theorem claim_C7_counterexample :
    (stepAll initState [ClientEvent.keydown "s" "KeyS"]).isDead = true
    ∧ (stepAll initState
        [ClientEvent.keydown "s" "KeyS",
         ClientEvent.keydown "s" "KeyS"]).isDead = false
    ∧ "request_respawn" ∈ (stepAll initState
        [ClientEvent.keydown "s" "KeyS",
         ClientEvent.keydown "s" "KeyS"]).emitted := by
  refine ⟨?_, ?_, ?_⟩ <;> decide

/-- Witness for `claim_C7_amended` at the spectator-exit input. -/
theorem claim_C7_witness :
    c7Dead.isDead = true
    ∧ (step c7Dead (ClientEvent.keydown "s" "KeyS")).isDead = false
    ∧ ((∃ pid, ClientEvent.keydown "s" "KeyS" = ClientEvent.initPlayer pid)
      ∨ (∃ key code,
          ClientEvent.keydown "s" "KeyS" = ClientEvent.keydown key code
          ∧ lowerKey key = "s" ∧ c7Dead.spectateMode = true
          ∧ "request_respawn"
              ∈ (step c7Dead (ClientEvent.keydown "s" "KeyS")).emitted)) := by
  have h1 : c7Dead.isDead = true := rfl
  have h2 : (step c7Dead (ClientEvent.keydown "s" "KeyS")).isDead = false := by
    decide
  exact ⟨h1, h2, claim_C7_amended c7Dead _ h1 h2⟩

/-! ### Render-loop player culling -/

/-- JS `Math.abs`. -/
def mathAbs (x : ℚ) : ℚ := if x < 0 then -x else x

theorem mathAbs_eq_abs (x : ℚ) : mathAbs x = |x| := by
  rw [mathAbs]
  by_cases h : x < 0
  · rw [if_pos h, abs_of_neg h]
  · rw [if_neg h, abs_of_nonneg (not_lt.mp h)]

/-- The per-player skip chain of the render loop (lines 256–263): skip the
local player's own snake while dead, skip missing or empty visual bodies,
then cull by `Math.abs(vis.x - this.camX) > width / this.currentScale +
200`. -/
def playerSkipped (isDead : Bool) (myId pid : String)
    (visOpt : Option VisualPlayer) (camX width scale : ℚ) : Bool :=
  (isDead && pid == myId)
  || match visOpt with
     | none => true
     | some vis =>
       vis.body.isEmpty || decide (width / scale + 200 < mathAbs (vis.x - camX))

/-- Modelled from the spec for the refinement comparison: "players (each
culled if its visual head lies farther than the half-viewport width plus a
margin)", read as claim C8 states it — the check covering the viewport
bounds in both axes — with the code's 200-unit margin. -/
def playerCulledSpec (vis : VisualPlayer) (camX camY width height scale : ℚ) :
    Bool :=
  decide (width / (2 * scale) + 200 < mathAbs (vis.x - camX))
  || decide (height / (2 * scale) + 200 < mathAbs (vis.y - camY))

/-- C8 (amended): a player with a non-empty visual body (and not the dead
local player) is skipped by the render loop if and only if the horizontal
distance of its visual head from the camera exceeds the full viewport
width over the current scale plus a 200-unit margin — the x axis only, and
the full (not half) width-derived threshold. -/
theorem claim_C8_amended (isDead : Bool) (myId pid : String)
    (vis : VisualPlayer) (camX width scale : ℚ)
    (hbody : vis.body ≠ []) (hself : ¬(isDead = true ∧ pid = myId)) :
    playerSkipped isDead myId pid (some vis) camX width scale = true
      ↔ width / scale + 200 < mathAbs (vis.x - camX) := by
  have h1 : (isDead && pid == myId) = false := by
    cases hd : isDead with
    | false => rfl
    | true =>
      subst hd
      have hne : pid ≠ myId := fun hc => hself ⟨rfl, hc⟩
      simp [hne]
  have h2 : vis.body.isEmpty = false := by
    cases hb : vis.body with
    | nil => exact absurd hb hbody
    | cons q rest => rfl
  simp only [playerSkipped, h1, h2, Bool.false_or, decide_eq_true_eq]

/-- C8 as stated is false: the code's cull check looks only at the x axis
and uses the full `width / scale` rather than the half-viewport width.
A head straight above the camera at distance 10^6 is not skipped though
every both-axes viewport bound puts it far off screen; and a head 800
units to the side is beyond the half-viewport-plus-margin bound (700) yet
still not skipped. -/
theorem claim_C8_counterexample :
    playerSkipped false "me" "p1" (some ⟨0, 1000000, 0, [⟨0, 0⟩]⟩)
      0 1000 1 = false
    ∧ playerCulledSpec ⟨0, 1000000, 0, [⟨0, 0⟩]⟩ 0 0 1000 1000 1 = true
    ∧ playerSkipped false "me" "p1" (some ⟨800, 0, 0, [⟨0, 0⟩]⟩)
      0 1000 1 = false
    ∧ playerCulledSpec ⟨800, 0, 0, [⟨0, 0⟩]⟩ 0 0 1000 1000 1 = true := by
  refine ⟨?_, ?_, ?_, ?_⟩ <;>
    norm_num [playerSkipped, playerCulledSpec, mathAbs]

/-- Concrete visual player for the C8 witness, 2000 units to the side. -/
def c8Vis : VisualPlayer := ⟨2000, 0, 0, [⟨0, 0⟩]⟩

/-- Witness for `claim_C8_amended`. -/
theorem claim_C8_witness :
    c8Vis.body ≠ []
    ∧ ¬((false : Bool) = true ∧ "p1" = "me")
    ∧ (playerSkipped false "me" "p1" (some c8Vis) 0 1000 1 = true
        ↔ (1000 : ℚ) / 1 + 200 < mathAbs (c8Vis.x - 0)) :=
  ⟨by simp [c8Vis], by simp,
    claim_C8_amended false "me" "p1" c8Vis 0 1000 1 (by simp [c8Vis])
      (by simp)⟩

/-! ### Heap-level model of updateVisuals (authoritative state is never mutated) -/

/-- The heap of body-point objects: visual bodies and authoritative bodies
are lists of references into this store, so that the per-point writes of
the lerp loop are explicit heap mutations and aliasing is expressible. -/
abbrev Store := List Point

/-- Reading a point object (`b.x`, `b.y`). -/
def getCell (st : Store) (r : Nat) : Point := st.getD r ⟨0, 0⟩

/-- Writing a point object in place (`vis.body[i].x += ...`). -/
def setCell (st : Store) (r : Nat) (v : Point) : Store := st.set r v

/-- An authoritative player whose body is a list of heap references. -/
structure RSrvPlayer where
  body : List Nat
  angle : ℚ
  length : ℚ
deriving Repr, DecidableEq

/-- A visual player whose body is a list of heap references. -/
structure RVisual where
  x : ℚ
  y : ℚ
  angle : ℚ
  body : List Nat
deriving Repr, DecidableEq

/-- `p.body.map((b) => ({ x: b.x, y: b.y }))`: allocates fresh cells
holding copies of the referenced points and returns their references. -/
def allocCopies (st : Store) (refs : List Nat) : Store × List Nat :=
  (st ++ refs.map (getCell st), List.range' st.length refs.length)

/-- The grow loop `vis.body.push({ ...vis.body[vis.body.length - 1] })`:
each iteration allocates a fresh cell copying the current tail point. -/
def rGrow (st : Store) (b : List Nat) (n : Nat) : Store × List Nat :=
  if h : b.length < n then
    rGrow (st ++ [getCell st (b.getLastD 0)]) (b ++ [st.length]) n
  else (st, b)
termination_by n - b.length
decreasing_by
  simp only [List.length_append, List.length_cons, List.length_nil]
  omega

/-- The shrink loop `vis.body.pop()` (no heap effect). -/
def rShrink (b : List Nat) (n : Nat) : List Nat :=
  if h : n < b.length then rShrink b.dropLast n else b
termination_by b.length - n
decreasing_by
  simp only [List.length_dropLast]
  omega

/-- The per-index interpolation loop (lines 187–190): an in-place write to
each visual body cell, reading the authoritative cell. -/
def rLerpBody (ls : ℚ) (st : Store) (prefs vrefs : List Nat) : Store :=
  match prefs, vrefs with
  | pr :: ps, vr :: vs =>
    rLerpBody ls
      (setCell st vr
        ⟨(getCell st vr).x + ((getCell st pr).x - (getCell st vr).x) * ls,
         (getCell st vr).y + ((getCell st pr).y - (getCell st vr).y) * ls⟩)
      ps vs
  | _, _ => st

/-- The first-sighting creation block (lines 156–164) at the heap level:
the new visual body is freshly allocated copies, never the authoritative
references themselves. -/
def rCreate (st : Store) (p : RSrvPlayer) (headRef : Nat)
    (vOpt : Option RVisual) : Store × RVisual :=
  match vOpt with
  | none =>
    let ac := allocCopies st p.body
    (ac.1, { x := (getCell st headRef).x, y := (getCell st headRef).y,
             angle := p.angle, body := ac.2 })
  | some v => (st, v)

/-- Both body-length loops (lines 167–168) at the heap level. -/
def rReconcile (st : Store) (b : List Nat) (n : Nat) : Store × List Nat :=
  let gr := rGrow st b n
  (gr.1, rShrink gr.2 n)

/-- One iteration of the `updateVisuals` player loop (lines 152–191) at
the heap level. -/
def rStep (dt : ℚ) (st : Store) (p : RSrvPlayer) (vOpt : Option RVisual) :
    Store × Option RVisual :=
  match p.body with
  | [] => (st, vOpt)
  | headRef :: _ =>
    let cr := rCreate st p headRef vOpt
    let rec2 := rReconcile cr.1 cr.2.body p.body.length
    let th := getCell rec2.1 headRef
    let dsq := (th.x - cr.2.x) ^ 2 + (th.y - cr.2.y) ^ 2
    if 500 ^ 2 < dsq then
      let ac := allocCopies rec2.1 p.body
      (ac.1, some { x := th.x, y := th.y, angle := p.angle, body := ac.2 })
    else
      let ls := 10 * dt
      (rLerpBody ls rec2.1 p.body rec2.2,
       some { x := cr.2.x + (th.x - cr.2.x) * ls,
              y := cr.2.y + (th.y - cr.2.y) * ls,
              angle := cr.2.angle + wrapDiff (p.angle - cr.2.angle) * ls,
              body := rec2.2 })

/-- `this.visualPlayers[pid] = v`. -/
def upsertVisual (vs : List (String × RVisual)) (pid : String) (v : RVisual) :
    List (String × RVisual) :=
  if vs.any (fun e => e.1 == pid) then
    vs.map (fun e => if e.1 == pid then (pid, v) else e)
  else vs ++ [(pid, v)]

/-- One iteration of the `updateVisuals` player loop (lines 152–191) at
the heap level. -/
def rStepFold (dt : ℚ) (acc : Store × List (String × RVisual))
    (pp : String × RSrvPlayer) : Store × List (String × RVisual) :=
  let vOpt := (acc.2.find? (fun e => e.1 == pp.1)).map (fun e => e.2)
  let r := rStep dt acc.1 pp.2 vOpt
  match r.2 with
  | some v => (r.1, upsertVisual acc.2 pp.1 v)
  | none => (r.1, acc.2)

/-- The whole `updateVisuals` player pass (lines 148–192) at the heap
level: the cleanup filter, then the per-player loop. -/
def rUpdateVisuals (dt : ℚ) (st : Store) (myId : String)
    (players : List (String × RSrvPlayer))
    (visuals : List (String × RVisual)) :
    Store × List (String × RVisual) :=
  let vs0 := visuals.filter
    (fun kv => players.any (fun pp => pp.1 == kv.1) || kv.1 == myId)
  players.foldl (rStepFold dt) (st, vs0)

/-- Every heap reference held by an authoritative body. -/
def authRefs (players : List (String × RSrvPlayer)) : List Nat :=
  players.flatMap (fun pp => pp.2.body)

/-- Visual-body references are in bounds and disjoint from every
authoritative reference (guaranteed by construction, since each tick
installs freshly parsed authoritative objects and every visual body cell
was allocated by `allocCopies` or `rGrow`). -/
def GoodRefs (A : List Nat) (n : Nat) (refs : List Nat) : Prop :=
  ∀ r ∈ refs, r < n ∧ r ∉ A

theorem goodRefs_mono (A : List Nat) (n m : Nat) (refs : List Nat)
    (h : GoodRefs A n refs) (hnm : n ≤ m) : GoodRefs A m refs :=
  fun r hr => ⟨lt_of_lt_of_le (h r hr).1 hnm, (h r hr).2⟩

theorem getCell_append (st ext : Store) (r : Nat) (h : r < st.length) :
    getCell (st ++ ext) r = getCell st r := by
  rw [getCell, getCell, List.getD_append _ _ _ _ h]

theorem getCell_set_ne (st : Store) (r rr : Nat) (v : Point) (h : r ≠ rr) :
    getCell (setCell st rr v) r = getCell st r := by
  rw [getCell, getCell, setCell]
  rw [List.getD_eq_getElem?_getD, List.getD_eq_getElem?_getD]
  rw [List.getElem?_set_ne (fun hc => h hc.symm)]

theorem rLerpBody_length (ls : ℚ) (prefs : List Nat) :
    ∀ (st : Store) (vrefs : List Nat),
      (rLerpBody ls st prefs vrefs).length = st.length := by
  induction prefs with
  | nil => intro st vrefs; rfl
  | cons pr ps ih =>
    intro st vrefs
    cases vrefs with
    | nil => rfl
    | cons vr vs =>
      rw [rLerpBody, ih]
      rw [setCell, List.length_set]

theorem rLerpBody_preserves (ls : ℚ) (prefs : List Nat) :
    ∀ (st : Store) (vrefs : List Nat) (r : Nat), r ∉ vrefs →
      getCell (rLerpBody ls st prefs vrefs) r = getCell st r := by
  induction prefs with
  | nil => intro st vrefs r _; rfl
  | cons pr ps ih =>
    intro st vrefs r hr
    cases vrefs with
    | nil => rfl
    | cons vr vs =>
      rw [rLerpBody]
      rw [ih _ _ _ (fun hc => hr (List.mem_cons_of_mem _ hc))]
      exact getCell_set_ne _ _ _ _ (fun hc => hr (hc ▸ List.mem_cons_self _ _))

theorem rShrink_subset (b : List Nat) (n : Nat) :
    ∀ r ∈ rShrink b n, r ∈ b := by
  induction b, n using rShrink.induct with
  | case1 b n h ih =>
    rw [rShrink, dif_pos h]
    intro r hr
    exact List.dropLast_subset _ (ih r hr)
  | case2 b n h =>
    rw [rShrink, dif_neg h]
    intro r hr
    exact hr


theorem rGrow_spec (A : List Nat) (st : Store) (b : List Nat) (n : Nat) :
    GoodRefs A st.length b → (∀ a ∈ A, a < st.length) →
    (∃ ext, (rGrow st b n).1 = st ++ ext)
    ∧ st.length ≤ (rGrow st b n).1.length
    ∧ GoodRefs A (rGrow st b n).1.length (rGrow st b n).2 := by
  induction st, b, n using rGrow.induct with
  | case1 st b n h ih =>
    intro hb hA
    rw [rGrow, dif_pos h]
    have hb2 : GoodRefs A (st ++ [getCell st (b.getLastD 0)]).length
        (b ++ [st.length]) := by
      intro r hr
      simp only [List.length_append, List.length_cons, List.length_nil]
      rcases List.mem_append.mp hr with hr | hr
      · have := hb r hr
        exact ⟨by omega, this.2⟩
      · have hr2 : r = st.length := by simpa using hr
        subst hr2
        refine ⟨by omega, fun hc => ?_⟩
        have := hA _ hc
        omega
    have hA2 : ∀ a ∈ A, a < (st ++ [getCell st (b.getLastD 0)]).length := by
      intro a ha
      have := hA a ha
      simp only [List.length_append, List.length_cons, List.length_nil]
      omega
    obtain ⟨⟨ext, hext⟩, hlen, hgood⟩ := ih hb2 hA2
    refine ⟨⟨[getCell st (b.getLastD 0)] ++ ext, ?_⟩, ?_, hgood⟩
    · rw [hext, List.append_assoc]
    · have h1 : st.length ≤ (st ++ [getCell st (b.getLastD 0)]).length := by
        simp
      omega
  | case2 st b n h =>
    intro hb hA
    rw [rGrow, dif_neg h]
    exact ⟨⟨[], by simp⟩, le_refl _, hb⟩

theorem rCreate_spec (A : List Nat) (st : Store) (p : RSrvPlayer)
    (headRef : Nat) (vOpt : Option RVisual)
    (hA : ∀ a ∈ A, a < st.length)
    (hv : ∀ v, vOpt = some v → GoodRefs A st.length v.body) :
    (∃ ext, (rCreate st p headRef vOpt).1 = st ++ ext)
    ∧ st.length ≤ (rCreate st p headRef vOpt).1.length
    ∧ GoodRefs A (rCreate st p headRef vOpt).1.length
        (rCreate st p headRef vOpt).2.body := by
  cases vOpt with
  | some v =>
    exact ⟨⟨[], by simp [rCreate]⟩, le_refl _, hv v rfl⟩
  | none =>
    rw [rCreate]
    dsimp only [allocCopies]
    refine ⟨⟨p.body.map (getCell st), rfl⟩, by simp, ?_⟩
    intro r hr
    have hr2 := List.mem_range'_1.mp hr
    simp only [List.length_append, List.length_map]
    refine ⟨by omega, fun hc => ?_⟩
    have := hA _ hc
    omega

theorem rReconcile_spec (A : List Nat) (st : Store) (b : List Nat) (n : Nat)
    (hb : GoodRefs A st.length b) (hA : ∀ a ∈ A, a < st.length) :
    (∃ ext, (rReconcile st b n).1 = st ++ ext)
    ∧ st.length ≤ (rReconcile st b n).1.length
    ∧ GoodRefs A (rReconcile st b n).1.length (rReconcile st b n).2 := by
  obtain ⟨hext, hlen, hgood⟩ := rGrow_spec A st b n hb hA
  refine ⟨hext, hlen, ?_⟩
  intro r hr
  exact hgood r (rShrink_subset _ _ r hr)

theorem rStep_spec (dt : ℚ) (A : List Nat) (st : Store) (p : RSrvPlayer)
    (vOpt : Option RVisual)
    (hA : ∀ a ∈ A, a < st.length)
    (hv : ∀ v, vOpt = some v → GoodRefs A st.length v.body) :
    st.length ≤ (rStep dt st p vOpt).1.length
    ∧ (∀ r ∈ A, getCell (rStep dt st p vOpt).1 r = getCell st r)
    ∧ (∀ v, (rStep dt st p vOpt).2 = some v →
        GoodRefs A (rStep dt st p vOpt).1.length v.body) := by
  rcases hpb : p.body with _ | ⟨headRef, rest⟩
  · rw [rStep, hpb]
    dsimp only
    exact ⟨le_refl _, fun r _ => rfl, fun v hveq => hv v hveq⟩
  · rw [rStep, hpb]
    dsimp only
    obtain ⟨⟨ext1, hext1⟩, hlen1, hgood1⟩ :=
      rCreate_spec A st p headRef vOpt hA hv
    have hA1 : ∀ a ∈ A, a < (rCreate st p headRef vOpt).1.length :=
      fun a ha => lt_of_lt_of_le (hA a ha) hlen1
    obtain ⟨⟨ext2, hext2⟩, hlen2, hgood2⟩ :=
      rReconcile_spec A (rCreate st p headRef vOpt).1
        (rCreate st p headRef vOpt).2.body (headRef :: rest).length hgood1 hA1
    have hA2 : ∀ a ∈ A,
        a < (rReconcile (rCreate st p headRef vOpt).1
          (rCreate st p headRef vOpt).2.body (headRef :: rest).length).1.length :=
      fun a ha => lt_of_lt_of_le (hA1 a ha) hlen2
    have hpres12 : ∀ r ∈ A,
        getCell (rReconcile (rCreate st p headRef vOpt).1
          (rCreate st p headRef vOpt).2.body (headRef :: rest).length).1 r
          = getCell st r := by
      intro r hr
      rw [hext2, getCell_append _ _ _ (hA1 r hr), hext1,
        getCell_append _ _ _ (hA r hr)]
    split
    · dsimp only [allocCopies]
      refine ⟨?_, ?_, ?_⟩
      · simp only [List.length_append, List.length_map]
        have := le_trans hlen1 hlen2
        omega
      · intro r hr
        rw [getCell_append _ _ _ (hA2 r hr)]
        exact hpres12 r hr
      · intro v hveq
        simp only [Option.some.injEq] at hveq
        rw [← hveq]
        intro r hr
        dsimp only at hr
        have hr2 := List.mem_range'_1.mp hr
        simp only [List.length_append, List.length_map]
        refine ⟨by omega, fun hc => ?_⟩
        have := hA2 _ hc
        omega
    · refine ⟨?_, ?_, ?_⟩
      · rw [rLerpBody_length]
        exact le_trans hlen1 hlen2
      · intro r hr
        rw [rLerpBody_preserves _ _ _ _ _ (fun hc => (hgood2 r hc).2 hr)]
        exact hpres12 r hr
      · intro v hveq
        simp only [Option.some.injEq] at hveq
        rw [← hveq]
        dsimp only
        rw [rLerpBody_length]
        exact hgood2

theorem mem_upsertVisual (vs : List (String × RVisual)) (pid : String)
    (v : RVisual) (kv : String × RVisual) (h : kv ∈ upsertVisual vs pid v) :
    kv = (pid, v) ∨ kv ∈ vs := by
  rw [upsertVisual] at h
  split at h
  · obtain ⟨e, he, hee⟩ := List.mem_map.mp h
    by_cases hc : e.1 == pid
    · rw [if_pos hc] at hee
      exact Or.inl hee.symm
    · rw [if_neg hc] at hee
      exact Or.inr (hee ▸ he)
  · rcases List.mem_append.mp h with h2 | h2
    · exact Or.inr h2
    · have : kv = (pid, v) := by simpa using h2
      exact Or.inl this

theorem rFold_spec (dt : ℚ) (A : List Nat) (st0 : Store)
    (ps : List (String × RSrvPlayer)) :
    ∀ (st : Store) (vs : List (String × RVisual)),
      (∀ a ∈ A, a < st0.length) →
      st0.length ≤ st.length →
      (∀ r ∈ A, getCell st r = getCell st0 r) →
      (∀ kv ∈ vs, GoodRefs A st.length kv.2.body) →
      st0.length ≤ (ps.foldl (rStepFold dt) (st, vs)).1.length
      ∧ (∀ r ∈ A,
          getCell (ps.foldl (rStepFold dt) (st, vs)).1 r = getCell st0 r)
      ∧ (∀ kv ∈ (ps.foldl (rStepFold dt) (st, vs)).2,
          GoodRefs A (ps.foldl (rStepFold dt) (st, vs)).1.length kv.2.body) := by
  induction ps with
  | nil =>
    intro st vs hA0 hle hcell hgood
    exact ⟨hle, hcell, hgood⟩
  | cons pp ps ih =>
    intro st vs hA0 hle hcell hgood
    rw [List.foldl_cons]
    have hA : ∀ a ∈ A, a < st.length :=
      fun a ha => lt_of_lt_of_le (hA0 a ha) hle
    have hvopt : ∀ v,
        (vs.find? (fun e => e.1 == pp.1)).map (fun e => e.2) = some v →
        GoodRefs A st.length v.body := by
      intro v hveq
      rw [Option.map_eq_some'] at hveq
      obtain ⟨e, hfind, hev⟩ := hveq
      have hmem := List.mem_of_find?_eq_some hfind
      have := hgood e hmem
      rw [← hev]
      exact this
    obtain ⟨hl1, hc1, hg1⟩ := rStep_spec dt A st pp.2 _ hA hvopt
    rw [rStepFold]
    dsimp only
    cases hr2 : (rStep dt st pp.2
        ((vs.find? (fun e => e.1 == pp.1)).map (fun e => e.2))).2 with
    | none =>
      apply ih
      · exact hA0
      · exact le_trans hle hl1
      · intro r hrr
        rw [hc1 r hrr]
        exact hcell r hrr
      · intro kv hkv
        exact goodRefs_mono _ _ _ _ (hgood kv hkv) hl1
    | some v =>
      apply ih
      · exact hA0
      · exact le_trans hle hl1
      · intro r hrr
        rw [hc1 r hrr]
        exact hcell r hrr
      · intro kv hkv
        rcases mem_upsertVisual _ _ _ _ hkv with hkv2 | hkv2
        · rw [hkv2]
          exact hg1 v hr2
        · exact goodRefs_mono _ _ _ _ (hgood kv hkv2) hl1

/-- C9: `updateVisuals` never mutates any authoritative player record: for
every players map, visuals map and `dt`, every heap cell referenced by an
authoritative body holds exactly the same point after the full update pass
(creation and teleport-snap install deep copies, and the per-point lerp
writes only to visual-owned cells); the authoritative `angle` and `length`
fields are read-only inputs of the pass by construction. -/
theorem claim_C9_frame (dt : ℚ) (st : Store) (myId : String)
    (players : List (String × RSrvPlayer)) (visuals : List (String × RVisual))
    (hAuth : ∀ r ∈ authRefs players, r < st.length)
    (hVis : ∀ kv ∈ visuals, GoodRefs (authRefs players) st.length kv.2.body) :
    ∀ r ∈ authRefs players,
      getCell (rUpdateVisuals dt st myId players visuals).1 r
        = getCell st r := by
  intro r hr
  rw [rUpdateVisuals]
  have hmain := rFold_spec dt (authRefs players) st players st
    (visuals.filter
      (fun kv => players.any (fun pp => pp.1 == kv.1) || kv.1 == myId))
    hAuth (le_refl _) (fun _ _ => rfl)
    (fun kv hkv => hVis kv (List.mem_of_mem_filter hkv))
  exact hmain.2.1 r hr

/-- Concrete heap for the C9 witness. -/
def c9Store : Store := [⟨1, 2⟩]

/-- Concrete players map for the C9 witness. -/
def c9Players : List (String × RSrvPlayer) := [("a", ⟨[0], 0, 5⟩)]

/-- Witness for `claim_C9_frame` on a one-player, one-cell heap. -/
theorem claim_C9_witness :
    (∀ r ∈ authRefs c9Players, r < c9Store.length)
    ∧ (∀ kv ∈ ([] : List (String × RVisual)),
        GoodRefs (authRefs c9Players) c9Store.length kv.2.body)
    ∧ (∀ r ∈ authRefs c9Players,
        getCell (rUpdateVisuals (1 / 10) c9Store "me" c9Players []).1 r
          = getCell c9Store r) := by
  have h1 : ∀ r ∈ authRefs c9Players, r < c9Store.length := by
    intro r hrm
    simp [authRefs, c9Players] at hrm
    simp [hrm, c9Store]
  exact ⟨h1, by simp,
    claim_C9_frame (1 / 10) c9Store "me" c9Players [] h1 (by simp)⟩
